import Mathlib

/-!
# Verification of the `miker` kernel's memory / scheduling core

Shallow embedding of the parts of the `miker` kernel (Rust) that the
specification's claims are about, together with theorems settling those claims.

Conventions of the embedding:
* Machine integers (`u64`, `usize`, `u32`) are modelled as `Nat`.  All the
  arithmetic appearing in the embedded code paths stays far below `2 ^ 64`
  (addresses are below `0xFFFF_8080_0000_0000`, page counts below `2 ^ 11`),
  so no wrapping behaviour has to be modelled except where noted in comments.
* Stateful code becomes explicit state passing on dedicated state structures.
* Rust `loop`/`while` constructs become fuel-based structural recursion; the
  fuel passed by the callers is shown (in comments at each site) to dominate
  the number of iterations the Rust loop can perform, so the embedding
  computes exactly the loop's result.
* Fallible code returns `Option`; a Rust `panic!`/`unwrap` failure is `none`.
-/

set_option maxRecDepth 4000

namespace Miker

/-! ## Constants (src/util/src/paging.rs, src/kernel/src/memmap.rs,
src/kernel/src/paging.rs) -/

/-- `util::paging::PAGE_SIZE`. -/
def PAGE_SIZE : Nat := 4096

/-- `kernel::memmap::WORD_SIZE = size_of::<usize>()` on x86-64. -/
def WORD_SIZE : Nat := 8

/-- `kernel::memmap::MAX_ORDER`. -/
def MAX_ORDER : Nat := 10

/-- `kernel::paging::STRAIGHT_PAGE_MAP_BASE` (the spec's `STRAIGHT_MAP_BASE`). -/
def STRAIGHT_PAGE_MAP_BASE : Nat := 0xffff800000000000

/-- `kernel::paging::STRAIGHT_PAGE_SIZE = 1 << (12 + 9 * 3)` (the spec's
`STRAIGHT_MAP_SIZE`, `2 ^ 39`). -/
def STRAIGHT_PAGE_SIZE : Nat := 1 <<< (12 + 9 * 3)

/-- Rust `ilog2` (`u32::ilog2` / `u64::ilog2` / `usize::ilog2`), fuel-based
so that it reduces by kernel computation (`Nat.log2` is defined by
well-founded recursion and does not reduce).  `ilog2 fuel n = Nat.log2 n`
whenever `n < 2 ^ fuel` (`ilog2_eq_log2` below); call sites use fuel 64,
which is exact for every `u64` value.  Rust's `ilog2` panics on `0`; as in
`Nat.log2`, the value here is `0`, and every embedded call site passes a
positive argument. -/
def ilog2 : Nat → Nat → Nat
  | 0, _ => 0
  | fuel + 1, n => if 2 ≤ n then ilog2 fuel (n / 2) + 1 else 0

/-- `ilog2` at fuel 64: exact for arguments `< 2 ^ 64`, i.e. all `u64`s. -/
def log2u64 (n : Nat) : Nat := ilog2 64 n

/-! ## Paging layer (src/kernel/src/paging.rs)

`pyhs_to_virt` (sic, the function is misspelled in the source) and
`virt_to_phys`.  `virt_to_phys` reads the `OnceStatic` globals
`KERNEL_VIRT_BASE`, `KERNEL_VIRT_END` and `KERNEL_PHYS_BASE`; the embedding
takes them as parameters. -/

/-- `kernel::paging::pyhs_to_virt`:
`if addr <= STRAIGHT_PAGE_SIZE { Some(addr + STRAIGHT_PAGE_MAP_BASE) } else { None }`.
Note the source really uses `<=`, not `<`. -/
def pyhs_to_virt (addr : Nat) : Option Nat :=
  if addr ≤ STRAIGHT_PAGE_SIZE then
    some (addr + STRAIGHT_PAGE_MAP_BASE)
  else
    none

/-- `kernel::paging::virt_to_phys`, parameterised by the values of the
`KERNEL_VIRT_BASE`, `KERNEL_VIRT_END` and `KERNEL_PHYS_BASE` globals.
The first branch tests membership of the straight-map range
`STRAIGHT_PAGE_MAP_BASE .. STRAIGHT_PAGE_MAP_BASE + STRAIGHT_PAGE_SIZE`
(half-open), the second the kernel-image range. -/
def virt_to_phys (kernelVirtBase kernelVirtEnd kernelPhysBase addr : Nat) :
    Option Nat :=
  if STRAIGHT_PAGE_MAP_BASE ≤ addr ∧ addr < STRAIGHT_PAGE_MAP_BASE + STRAIGHT_PAGE_SIZE then
    some (addr - STRAIGHT_PAGE_MAP_BASE)
  else if kernelVirtBase ≤ addr ∧ addr < kernelVirtEnd then
    some (addr - kernelVirtBase + kernelPhysBase)
  else
    none

/-! ## Global heap effective-size computation (src/kernel/src/memmap.rs)

`calc_alloc_size(layout)` in terms of `layout.size()` and `layout.align()`.
The source computes, for `size > WORD_SIZE`,
`pow = (size / align - 1).checked_ilog2().map(|v| v + 1).unwrap_or(0)` and
returns `align << pow`.  `size / align` is Rust integer (flooring) division;
`checked_ilog2` is `none` on `0`, otherwise `Nat.log2`.  The subtraction
`size / align - 1` cannot underflow as long as `align ≤ size` (for
`align > size > WORD_SIZE` the Rust code would panic in debug builds /
wrap in release builds; `Nat` subtraction truncates instead, which we only
ever use with `align ≤ size`). -/
def calc_alloc_size (size align : Nat) : Nat :=
  if size ≤ WORD_SIZE then
    WORD_SIZE
  else
    let pow := if size / align - 1 = 0 then 0 else log2u64 (size / align - 1) + 1
    align <<< pow

/-- The effective size *as the specification words it* (the spec-side notion
for claim C5, stated as a predicate): `n` is the smallest power of two that is
`≥ max(size, WORD_SIZE)` and whose quotient by `align` is an integer power of
two (i.e. `n = align * 2 ^ j` for some `j`). -/
def SpecEffectiveSize (size align n : Nat) : Prop :=
  ((∃ k, n = 2 ^ k) ∧ max size WORD_SIZE ≤ n ∧ ∃ j, n = align * 2 ^ j) ∧
    ∀ m, ((∃ k, m = 2 ^ k) ∧ max size WORD_SIZE ≤ m ∧ ∃ j, m = align * 2 ^ j) →
      n ≤ m

/-! ## OnceStatic (src/util/src/sync.rs)

Sequential model of `OnceStatic<T>`: `data: MaybeUninit<T>` together with
`is_initialized: bool` collapse to an `Option T` (`none` = uninitialised).
The internal spin lock and the release fence order concurrent accesses and
have no further effect on the sequential state machine. -/

/-- `OnceStatic::new()`. -/
def onceNew (T : Type) : Option T := none

/-- `OnceStatic::init(value)`: if already initialised, releases the lock and
returns `false` leaving the data untouched; otherwise writes the value, sets
`is_initialized` and returns `true`.  Result is `(returned bool, new state)`. -/
def onceInit {T : Type} (s : Option T) (value : T) : Bool × Option T :=
  match s with
  | some v => (false, some v)
  | none => (true, some value)

/-- `OnceStatic::get` / `as_ref`: panics (`none`) when not initialised,
otherwise yields the stored value. -/
def onceGet {T : Type} (s : Option T) : Option T :=
  match s with
  | some v => some v
  | none => none

/-- Runs a list of `init` calls in order, collecting each call's returned
`bool` and threading the state. -/
def onceRunInits {T : Type} (s : Option T) : List T → List Bool × Option T
  | [] => ([], s)
  | v :: rest =>
    let (b, s') := onceInit s v
    let (bs, sEnd) := onceRunInits s' rest
    (b :: bs, sEnd)

/-! ## Task manager (src/kernel/src/task.rs)

The scheduler state the claims are about: the task table (`HashMap<u32,
UnsafeCell<Task>>`, modelled as a function from id to `Option TaskState` —
only a task's `state` field is read or written by the embedded operations;
`priority`, `ctx` and `_stack` are never consulted by them), the ready queue
(`VecDeque<u32>`, front = head of the list), `running_id` and `head_id`.
The `InterruptFreeMutex` lock acquisitions order concurrent accesses and do
not change this state. -/

/-- `kernel::task::TaskState`.  (`Bloked` is the source's spelling.) -/
inductive TaskState where
  | Running
  | Ready
  | Bloked
deriving DecidableEq, Repr

/-- State of `TaskManager` (tasks restricted to their `state` field). -/
structure TMState where
  tasks : Nat → Option TaskState
  queue : List Nat
  runningId : Nat
  headId : Nat

/-- Updates the `state` field of task `id` (a `HashMap` entry overwrite). -/
def tmSetState (tasks : Nat → Option TaskState) (id : Nat) (st : TaskState) :
    Nat → Option TaskState :=
  fun i => if i = id then some st else tasks i

/-- `TaskManager::new()`. -/
def tmNew : TMState :=
  { tasks := fun _ => none, queue := [], runningId := 0, headId := 0 }

/-- `TaskManager::init()`: registers the current context as task 0 in state
`Running` and puts it on the queue. -/
def tmInit (s : TMState) : TMState :=
  { s with
    tasks := tmSetState s.tasks 0 TaskState.Running
    queue := s.queue ++ [0] }

/-- `TaskManager::determine_id`: reads `head_id` and returns
`head_id.checked_add(1)`; the `None` case is a `todo!()` panic (modelled as
`none`).  Note that, exactly as in the source, the incremented value is
**never stored back** into `head_id`: the function only reads through the
`&mut` reference it takes. -/
def tmDetermineId (s : TMState) : Option Nat :=
  if s.headId + 1 < 2 ^ 32 then some (s.headId + 1) else none

/-- `TaskManager::register_new_task(f, priority, cs, ss)`: determines the new
id, builds the task (entry point / stack / segment setup does not touch the
scheduling state), marks it `Ready`, inserts it into the table (a `HashMap`
insert overwrites any task already stored under that id) and appends the id
to the queue.  Returns the (unchanged-except) state together with the id the
call assigned. -/
def tmRegisterNewTask (s : TMState) : Option (TMState × Nat) :=
  match tmDetermineId s with
  | none => none
  | some newId =>
    some ({ s with
            tasks := tmSetState s.tasks newId TaskState.Ready
            queue := s.queue ++ [newId] }, newId)

/-- `TaskManager::rotate`: pops the queue head (`unwrap`: `none` on an empty
queue), marks it `Ready` (`unwrap`: `none` when the id is not in the table),
pushes it to the back, marks the new front `Running` and returns it. -/
def tmRotate (s : TMState) : Option (TMState × Nat) :=
  match s.queue with
  | [] => none
  | currentId :: rest =>
    match s.tasks currentId with
    | none => none
    | some _ =>
      let tasks := tmSetState s.tasks currentId TaskState.Ready
      let queue := rest ++ [currentId]
      -- `queue.front().copied().unwrap()`: the queue is non-empty because an
      -- element was just pushed.
      let nextId := queue.headI
      match tasks nextId with
      | none => none
      | some _ =>
        some ({ s with tasks := tmSetState tasks nextId TaskState.Running
                       queue := queue }, nextId)

/-- `TaskManager::sleep` up to the `switch_context` call: saves IF and
disables interrupts (tracked for claim C10 elsewhere; the scheduling state is
unaffected), marks the current task `Bloked`, pops the queue front
(`VecDeque::pop_front` returns `None` on an empty queue without panicking;
the result is discarded), rotates, and stores the rotation's result into
`running_id`.  The context save/restore swaps CPU contexts, which are not
part of this state. -/
def tmSleep (s : TMState) : Option TMState :=
  match s.tasks s.runningId with
  | none => none
  | some _ =>
    let s := { s with tasks := tmSetState s.tasks s.runningId TaskState.Bloked }
    let s := { s with queue := s.queue.tail }
    match tmRotate s with
    | none => none
    | some (s, next) =>
      match s.tasks next with
      | none => none
      | some _ => some { s with runningId := next }

/-- `TaskManager::wake_up(id)` with the CPU interrupt flag threaded through
explicitly.  The body is, in source order:
`asmfunc::cli()` (IF := false); `self.lock.lock()` (its `try_lock` saves
`prev_if := get_if()`, which is `false` here, and executes `cli` again); the
table/queue update; the lock guard drop (re-executes `sti` only when
`prev_if` was set, i.e. not here); finally `asmfunc::sti()` (IF := true),
executed unconditionally.  Returns the new state and the IF value on return. -/
def tmWakeUp (s : TMState) (intFlag : Bool) (id : Nat) : TMState × Bool :=
  -- asmfunc::cli()
  let intFlag := false
  -- self.lock.lock(): prev_if := intFlag (= false); cli
  let prevIf := intFlag
  let intFlag := false
  let s :=
    match s.tasks id with
    | none => s
    | some st =>
      if st = TaskState.Bloked then
        { s with tasks := tmSetState s.tasks id TaskState.Ready
                 queue := s.queue ++ [id] }
      else s
  -- lock guard drop: sti only if prevIf
  let intFlag := if prevIf then true else intFlag
  -- asmfunc::sti()
  let intFlag := true
  (s, intFlag)

/-! ## Page allocator (src/kernel/src/memmap.rs, `PageMap`)

The allocator state: the buddy table (`table: [Option<&'static mut
PageBlock>; MAX_ORDER + 1]`, a singly linked free list per order, modelled
as a `List` per order with the list head first) and the metadata-node cache
(`cache: Cache<PageBlock>`, a linked list of free `PageBlock` nodes carved
out of unused pages).  A cached node's memory address is never observable —
`Cache::pop_next` overwrites the node with `Default::default()` and every
user then assigns both fields — so the cache is modelled by its length.

`carved` is a ghost instrumentation counter (not present in the source): it
is incremented each time the allocator converts a page of payload memory
into metadata nodes (`store_as_cache` on a page of a block being freed or
registered).  It lets theorems talk about executions in which the node cache
never runs dry. -/

/-- `kernel::memmap::PageBlock` (the `next` link is the list structure
itself; `_pin` is a marker). -/
structure PageBlock where
  start : Nat
  pageCount : Nat
deriving DecidableEq, Repr

/-- `size_of::<PageBlock>()`: `next: Option<&mut _>` (8 bytes, niche-packed),
`start: u64` (8), `page_count: usize` (8), `PhantomPinned` (0). -/
def PAGE_BLOCK_SIZE : Nat := 24

/-- State of `PageMap` (the `memmap` field, only stored by `init` and never
read by the operations below, is omitted). -/
structure PageMapState where
  /-- `table[k]` = the order-`k` free list, head first; length `MAX_ORDER+1`. -/
  table : List (List PageBlock)
  /-- Number of nodes in the `cache` linked list. -/
  cache : Nat
  /-- Ghost: number of pages converted into metadata nodes so far. -/
  carved : Nat
deriving DecidableEq, Repr

/-- The static initializer of `PAGE_MAP`: all table entries `None`, empty
cache. -/
def pmEmpty : PageMapState :=
  { table := List.replicate (MAX_ORDER + 1) [], cache := 0, carved := 0 }

/-- Number of `cache.push_ptr` iterations of `PageMap::store_as_cache(start,
stop)`: `while start + size_of::<PageBlock>() < stop { start += …; push }`.
Fuel-based; every call site uses `stop = start + PAGE_SIZE` and fuel
`PAGE_SIZE`, which dominates the iteration count (each iteration advances
`start` by 24). -/
def storeAsCacheAdd (fuel start stop : Nat) : Nat :=
  match fuel with
  | 0 => 0
  | fuel + 1 =>
    if start + PAGE_BLOCK_SIZE < stop then
      storeAsCacheAdd fuel (start + PAGE_BLOCK_SIZE) stop + 1
    else 0

/-- `PageMap::remove_block(start, order)`.
For `order > MAX_ORDER` or an empty list: `None`.  With `start = None`, or
with `start` equal to the head's start address: the head is unlinked and
returned.  Otherwise the source scans the rest of the list; the scan keeps
`tail` pointing at the `next` *field* of the previously re-linked node, and
that field is always `None` at the test `if let Some(tail) = tail` (the
chain is disconnected while scanning: each node's `next` is swapped out
before the test and the node is re-linked only after it), so the unlink
branch inside the scan never executes — the loop re-links the whole list in
its original order and returns `None`.  Hence a block that is not the list
head is never removed, and the state is unchanged on `None`. -/
def removeBlock (s : PageMapState) (startQ : Option Nat) (order : Nat) :
    Option (PageBlock × PageMapState) :=
  if order > MAX_ORDER then none
  else
    match s.table.getD order [] with
    | [] => none
    | head :: rest =>
      match startQ with
      | none => some (head, { s with table := s.table.set order rest })
      | some st =>
        if st = head.start then
          some (head, { s with table := s.table.set order rest })
        else
          none

/-- `PageMap::insert_block`: pushes `block` at the front of the list of
order `block.page_count.ilog2()`.  (`ilog2` panics on `0`; every call site
passes a positive power of two.  Every call site also has the computed order
`≤ MAX_ORDER`, so the `List.set` index is in range.) -/
def insertBlock (s : PageMapState) (b : PageBlock) : PageMapState :=
  let order := log2u64 b.pageCount
  { s with table := s.table.set order (b :: s.table.getD order []) }

/-- `PageMap::push_cache`. -/
def pushCache (s : PageMapState) : PageMapState :=
  { s with cache := s.cache + 1 }

/-- `PageMap::insert_block_with_merge`: `while block.page_count <= MAX_ORDER`
(note: the source compares the page *count* against the order bound
`MAX_ORDER = 10`), compute the buddy start `block.start ^ (PAGE_SIZE <<
order)`, try to remove it from the table at the block's own order; on
success take the minimum start, double the count and cache the buddy's node;
on failure leave the loop.  Finally insert the (possibly merged) block.
Fuel: the count at least doubles per iteration while the guard needs
`count ≤ 10`, so for any positive count at most 4 iterations run; every call
site passes fuel 16. -/
def insertBlockWithMerge (fuel : Nat) (s : PageMapState) (b : PageBlock) :
    PageMapState :=
  match fuel with
  | 0 => insertBlock s b
  | fuel + 1 =>
    if b.pageCount ≤ MAX_ORDER then
      let order := log2u64 b.pageCount
      let buddyStart := Nat.xor b.start (PAGE_SIZE <<< order)
      match removeBlock s (some buddyStart) order with
      | none => insertBlock s b
      | some (_, s') =>
        insertBlockWithMerge fuel (pushCache s')
          { start := min b.start buddyStart, pageCount := b.pageCount * 2 }
    else insertBlock s b

/-- Rust `u64::trailing_zeros` (64 for `0`): for `n > 0`,
`n ^ (n - 1) = 2 ^ (tz n + 1) - 1`, so its `log2` is `tz n`. -/
def trailingZeros (n : Nat) : Nat :=
  if n = 0 then 64 else log2u64 (Nat.xor n (n - 1))

/-- `PageMap::register_continuous_pages(block_start, page_count)`:
`while page_count > 0`: pop a cache node; if the cache is empty, carve the
page at `block_start` into cache nodes (`store_as_cache`) and continue with
the next page; otherwise insert a block of order
`min(page_count.ilog2(), MAX_ORDER, block_start.trailing_zeros() - 12)`.
The source computes `trailing_zeros() - PAGE_SIZE.trailing_zeros()` in
`u32`; all starts reached in executions from `init`/`allocate`/`free` are
page-aligned (`tz ≥ 12`); `Nat` subtraction truncates at `0` where Rust
would overflow-panic.  Fuel: each iteration lowers `page_count` by at least
one; call sites pass `page_count + 1`. -/
def registerContinuousPages (fuel : Nat) (s : PageMapState)
    (blockStart pageCount : Nat) : PageMapState :=
  match fuel with
  | 0 => s
  | fuel + 1 =>
    if pageCount = 0 then s
    else if s.cache = 0 then
      let s := { s with
        cache := s.cache + storeAsCacheAdd PAGE_SIZE blockStart (blockStart + PAGE_SIZE)
        carved := s.carved + 1 }
      registerContinuousPages fuel s (blockStart + PAGE_SIZE) (pageCount - 1)
    else
      let s := { s with cache := s.cache - 1 }
      let order := min (min (log2u64 pageCount) MAX_ORDER)
        (trailingZeros blockStart - 12)
      let count := 1 <<< order
      let s := insertBlock s { start := blockStart, pageCount := count }
      registerContinuousPages fuel s (blockStart + count * PAGE_SIZE)
        (pageCount - count)

/-- Rust `usize::is_power_of_two`. -/
def isPow2 (n : Nat) : Bool :=
  decide (0 < n) && decide (2 ^ log2u64 n = n)

/-- The `while search_order <= MAX_ORDER` loop of `PageMap::allocate`.
Fuel: `search_order` increases each iteration; `allocate` passes
`MAX_ORDER + 1`. -/
def pmAllocLoop (fuel : Nat) (s : PageMapState)
    (order searchOrder pageCount : Nat) : PageMapState × Nat :=
  match fuel with
  | 0 => (s, 0)
  | fuel + 1 =>
    if searchOrder > MAX_ORDER then (s, 0)
    else
      match removeBlock s none searchOrder with
      | some (block, s1) =>
        let s2 := pushCache s1
        let s3 :=
          if searchOrder > order then
            registerContinuousPages ((1 <<< searchOrder) - pageCount + 1) s2
              (block.start + (PAGE_SIZE <<< order))
              ((1 <<< searchOrder) - pageCount)
          else s2
        (s3, block.start)
      | none => pmAllocLoop fuel s order (searchOrder + 1) pageCount

/-- `PageMap::allocate(page_count)`: null (modelled as address `0`) unless
`page_count` is a power of two `≤ 2 ^ MAX_ORDER`; otherwise search the
smallest order with a free block, split the surplus back into the table, and
return the block's start address. -/
def pmAllocate (s : PageMapState) (pageCount : Nat) : PageMapState × Nat :=
  if ¬(isPow2 pageCount = true) ∨ pageCount > 1 <<< MAX_ORDER then (s, 0)
  else
    let order := log2u64 pageCount
    pmAllocLoop (MAX_ORDER + 1) s order order pageCount

/-- `PageMap::free(start, page_count)`: pop a cache node and insert
`{start, page_count}` with merging; if the cache is empty, carve the first
page of the freed block into cache nodes and register only the remaining
`page_count - 1` pages (without merging). -/
def pmFree (s : PageMapState) (start pageCount : Nat) : PageMapState :=
  if s.cache ≠ 0 then
    let s := { s with cache := s.cache - 1 }
    insertBlockWithMerge 16 s { start := start, pageCount := pageCount }
  else
    let newStart := start + PAGE_SIZE
    let s := { s with
      cache := s.cache + storeAsCacheAdd PAGE_SIZE start newStart
      carved := s.carved + 1 }
    registerContinuousPages pageCount s newStart (pageCount - 1)

/-- `PageMap::free_pages_count`: folds over the table, adding
`list_len * head.page_count` for each non-empty list (the head block's
`page_count`, multiplied by the length of the list — exactly as in the
source). -/
def pmFreePagesCount (s : PageMapState) : Nat :=
  (s.table.map fun l =>
    match l with
    | [] => 0
    | b :: _ => l.length * b.pageCount).sum

/-! ### `PageMap::init` (the table-building part)

`init` also sets up the straight mapping, rewrites the UEFI memory map's
`virt_start` fields, calls `SetVirtualAddressMap` and clears `PML4[0]`; none
of those touch the buddy table or the cache.  What is embedded: the
`virt_start` assignment (`pyhs_to_virt(phys).map(|a| a.addr).unwrap_or(0)`)
followed by the coalescing loop over the usable descriptors. -/

/-- One UEFI memory descriptor (fields used by `init`). -/
structure MemDesc where
  ty : Nat
  physStart : Nat
  pageCount : Nat
deriving DecidableEq, Repr

/-- `MemoryType::BOOT_SERVICES_CODE`. -/
def BOOT_SERVICES_CODE : Nat := 3
/-- `MemoryType::BOOT_SERVICES_DATA`. -/
def BOOT_SERVICES_DATA : Nat := 4
/-- `MemoryType::CONVENTIONAL`. -/
def CONVENTIONAL : Nat := 7

/-- The membership test
`[BOOT_SERVICES_CODE, BOOT_SERVICES_DATA, CONVENTIONAL].contains(&desc.ty)`. -/
def isUsableType (ty : Nat) : Bool :=
  decide (ty = BOOT_SERVICES_CODE) || decide (ty = BOOT_SERVICES_DATA) ||
    decide (ty = CONVENTIONAL)

/-- `desc.virt_start` as assigned by `init`. -/
def assignVirtStart (phys : Nat) : Nat :=
  (pyhs_to_virt phys).getD 0

/-- The descriptor loop of `init`, carrying the accumulated contiguous block
`(block_start, page_count)`; after the loop the pending block is registered
once more. -/
def pmInitLoop (s : PageMapState) (blockStart pageCount : Nat) :
    List MemDesc → PageMapState
  | [] => registerContinuousPages (pageCount + 1) s blockStart pageCount
  | d :: rest =>
    if ¬(isUsableType d.ty = true) then pmInitLoop s blockStart pageCount rest
    else
      let virt := assignVirtStart d.physStart
      if virt = 0 then pmInitLoop s blockStart pageCount rest
      else if blockStart + pageCount * PAGE_SIZE = virt then
        pmInitLoop s blockStart (pageCount + d.pageCount) rest
      else
        let s := registerContinuousPages (pageCount + 1) s blockStart pageCount
        pmInitLoop s virt d.pageCount rest

/-- `PageMap::init(memmap, …)`, restricted to its effect on the buddy table
and node cache, starting from the static `PAGE_MAP` initializer. -/
def pmInit (memmap : List MemDesc) : PageMapState :=
  pmInitLoop pmEmpty 0 0 memmap

/-! ### Traces of allocator calls (for the conservation claim)

A client's interaction with `PAGE_MAP` is a list of `allocate`/`free`
calls.  Executions also track the running totals of successfully allocated
and freed pages, so that "every allocation is eventually freed" can be
stated about a trace. -/

/-- One `PageMap` call. -/
inductive PMOp where
  | alloc (pageCount : Nat)
  | free (start pageCount : Nat)
deriving DecidableEq, Repr

/-- One step: `alloc` runs `PageMap::allocate` and adds its page count to
the allocated total when the call succeeds (`allocate` reports failure by
returning the null address `0`); `free` runs `PageMap::free` and adds its
page count to the freed total. -/
def pmStep (acc : PageMapState × Nat × Nat) (op : PMOp) :
    PageMapState × Nat × Nat :=
  match op with
  | .alloc pc =>
    let r := pmAllocate acc.1 pc
    (r.1, acc.2.1 + (if r.2 = 0 then 0 else pc), acc.2.2)
  | .free a pc => (pmFree acc.1 a pc, acc.2.1, acc.2.2 + pc)

/-- Runs a trace of calls. -/
def pmExec (acc : PageMapState × Nat × Nat) : List PMOp → PageMapState × Nat × Nat
  | [] => acc
  | op :: rest => pmExec (pmStep acc op) rest

/-- The per-call part of the claim's validity condition that concerns
`free`: in a valid sequence every `free(start, page_count)` matches a prior
successful `allocate`, so its address is non-null and its page count is a
power of two not exceeding `2 ^ MAX_ORDER` (anything else could not have
been returned by `allocate`). -/
def pmOpValid : PMOp → Bool
  | .alloc _ => true
  | .free a pc => decide (a ≠ 0) && isPow2 pc && decide (pc ≤ 2 ^ MAX_ORDER)

/-- Well-formedness of the buddy table, as `PageMap` maintains it: the
table has `MAX_ORDER + 1` rows, and every block on row `k` covers exactly
`2 ^ k` pages and starts at a non-null address. -/
def TableInv (s : PageMapState) : Prop :=
  s.table.length = MAX_ORDER + 1 ∧
    ∀ k, ∀ b ∈ s.table.getD k [], b.pageCount = 2 ^ k ∧ b.start ≠ 0

/-- Total page count of one table row. -/
def rowPages (l : List PageBlock) : Nat := (l.map PageBlock.pageCount).sum

/-- Total free pages by summing every block (the mathematically transparent
counterpart of `pmFreePagesCount`; they agree under `TableInv`). -/
def sumPages (s : PageMapState) : Nat := (s.table.map rowPages).sum

/-! ## Small arithmetic helpers -/

lemma ilog2_eq_log2 : ∀ (fuel n : Nat), n < 2 ^ fuel → ilog2 fuel n = Nat.log2 n
  | 0, n, h => by
    have hn : n = 0 := by simpa using Nat.lt_one_iff.mp (by simpa using h)
    subst hn
    rw [ilog2, Nat.log2]
    norm_num
  | fuel + 1, n, h => by
    rw [ilog2, Nat.log2]
    by_cases h2 : 2 ≤ n
    · rw [if_pos h2, if_pos h2, ilog2_eq_log2 fuel (n / 2)]
      have := Nat.pow_succ 2 fuel
      omega
    · rw [if_neg h2, if_neg h2]

lemma log2u64_eq {n : Nat} (h : n < 2 ^ 64) : log2u64 n = Nat.log2 n :=
  ilog2_eq_log2 64 n h

lemma log2_two_pow (j : Nat) : Nat.log2 (2 ^ j) = j := by
  rw [Nat.log2_eq_log_two]
  exact Nat.log_pow Nat.one_lt_two j

lemma log2u64_two_pow {j : Nat} (hj : j < 64) : log2u64 (2 ^ j) = j := by
  rw [log2u64_eq (Nat.pow_lt_pow_right Nat.one_lt_two hj), log2_two_pow]

lemma two_pow_log2_le {n : Nat} (hn : n ≠ 0) : 2 ^ Nat.log2 n ≤ n := by
  rw [Nat.log2_eq_log_two]
  exact Nat.pow_log_le_self 2 hn

lemma two_pow_log2u64_le {n : Nat} (hn : n ≠ 0) (hb : n < 2 ^ 64) :
    2 ^ log2u64 n ≤ n := by
  rw [log2u64_eq hb]
  exact two_pow_log2_le hn

lemma isPow2_spec {n : Nat} (h : isPow2 n = true) :
    0 < n ∧ n = 2 ^ log2u64 n := by
  simp only [isPow2, Bool.and_eq_true, decide_eq_true_eq] at h
  exact ⟨h.1, h.2.symm⟩

lemma two_pow_ilog2_le : ∀ (fuel n : Nat), n ≠ 0 → 2 ^ ilog2 fuel n ≤ n
  | 0, n, hn => by
    rw [ilog2]
    omega
  | fuel + 1, n, hn => by
    rw [ilog2]
    by_cases h2 : 2 ≤ n
    · rw [if_pos h2, pow_succ]
      have hhalf : n / 2 ≠ 0 := by omega
      have := two_pow_ilog2_le fuel (n / 2) hhalf
      omega
    · rw [if_neg h2, pow_zero]
      omega

/-! ## List helpers for the buddy table -/

lemma getD_set_self {α : Type} (d : α) :
    ∀ (t : List α) (k : Nat) (l : α), k < t.length → (t.set k l).getD k d = l
  | [], k, l, h => absurd h (by simp)
  | _ :: _, 0, l, _ => rfl
  | _ :: xs, k + 1, l, h =>
    getD_set_self d xs k l (by simpa using h)

lemma getD_set_ne {α : Type} (d : α) :
    ∀ (t : List α) (j k : Nat) (l : α), j ≠ k →
      (t.set k l).getD j d = t.getD j d
  | [], _, _, _, _ => rfl
  | _ :: _, 0, 0, l, h => absurd rfl h
  | _ :: _, 0, _ + 1, l, _ => rfl
  | _ :: _, _ + 1, 0, l, _ => rfl
  | _ :: xs, j + 1, k + 1, l, h =>
    getD_set_ne d xs j k l (by omega)

lemma map_rowPages_set_cons :
    ∀ (t : List (List PageBlock)) (k : Nat) (b : PageBlock), k < t.length →
      ((t.set k (b :: t.getD k [])).map rowPages).sum
        = (t.map rowPages).sum + b.pageCount
  | [], k, b, h => absurd h (by simp)
  | x :: xs, 0, b, _ => by
    simp [rowPages]
    omega
  | x :: xs, k + 1, b, h => by
    have ih := map_rowPages_set_cons xs k b (by simpa using h)
    simp only [List.set, List.getD_cons_succ, List.map_cons, List.sum_cons]
    omega

lemma map_rowPages_set_tail :
    ∀ (t : List (List PageBlock)) (k : Nat) (head : PageBlock)
      (rest : List PageBlock), t.getD k [] = head :: rest → k < t.length →
      ((t.set k rest).map rowPages).sum + head.pageCount
        = (t.map rowPages).sum
  | [], k, _, _, _, h => absurd h (by simp)
  | x :: xs, 0, head, rest, hx, _ => by
    simp only [List.getD_cons_zero] at hx
    subst hx
    simp [rowPages]
    omega
  | x :: xs, k + 1, head, rest, hx, h => by
    have ih := map_rowPages_set_tail xs k head rest
      (by simpa using hx) (by simpa using h)
    simp only [List.set, List.map_cons, List.sum_cons]
    omega

lemma rowPages_of_const :
    ∀ (l : List PageBlock) (c : Nat), (∀ b ∈ l, b.pageCount = c) →
      rowPages l = l.length * c
  | [], _, _ => by simp [rowPages]
  | b :: rest, c, h => by
    have hb : b.pageCount = c := h b (by simp)
    have ih := rowPages_of_const rest c fun x hx => h x (by simp [hx])
    simp only [rowPages, List.map_cons, List.sum_cons, List.length_cons] at ih ⊢
    rw [Nat.succ_mul]
    omega

/-! ## Structural lemmas about the buddy-table operations

These relate each `PageMap` operation to `sumPages`, `TableInv` and the
ghost `carved` counter; they are the ingredients of the conservation
theorem for claim C3. -/

lemma removeBlock_spec {s : PageMapState} {q : Option Nat} {k : Nat}
    {b : PageBlock} {s' : PageMapState} (hInv : TableInv s)
    (h : removeBlock s q k = some (b, s')) :
    b.pageCount = 2 ^ k ∧ b.start ≠ 0 ∧ k ≤ MAX_ORDER ∧
      (∀ st, q = some st → b.start = st) ∧
      TableInv s' ∧ sumPages s' + b.pageCount = sumPages s ∧
      s'.cache = s.cache ∧ s'.carved = s.carved := by
  unfold removeBlock at h
  split at h
  · exact absurd h (by simp)
  rename_i hk
  split at h
  · exact absurd h (by simp)
  rename_i head rest hrow
  have hk10 : k ≤ MAX_ORDER := by omega
  have hklen : k < s.table.length := by
    rw [hInv.1]
    rw [MAX_ORDER] at hk10 ⊢
    omega
  have hmem : head ∈ s.table.getD k [] := by rw [hrow]; exact List.mem_cons_self _ _
  have hhead := hInv.2 k head hmem
  have hcoreInv : TableInv { s with table := s.table.set k rest } := by
    refine ⟨by simpa using hInv.1, ?_⟩
    intro j b' hb'
    by_cases hjk : j = k
    · subst hjk
      rw [getD_set_self [] _ _ _ hklen] at hb'
      exact hInv.2 j b' (by rw [hrow]; exact List.mem_cons_of_mem _ hb')
    · rw [getD_set_ne [] _ _ _ _ hjk] at hb'
      exact hInv.2 j b' hb'
  have hcoreSum := map_rowPages_set_tail s.table k head rest hrow hklen
  split at h
  · -- `start = None`: the head is returned unconditionally.
    simp only [Option.some.injEq, Prod.mk.injEq] at h
    obtain ⟨hb, hs'⟩ := h
    subst hb
    subst hs'
    refine ⟨hhead.1, hhead.2, hk10, ?_, hcoreInv, hcoreSum, rfl, rfl⟩
    intro st hst
    simp at hst
  · -- `start = Some st`: the head is returned only when its start matches.
    rename_i st
    split at h
    · rename_i hst
      simp only [Option.some.injEq, Prod.mk.injEq] at h
      obtain ⟨hb, hs'⟩ := h
      subst hb
      subst hs'
      refine ⟨hhead.1, hhead.2, hk10, ?_, hcoreInv, hcoreSum, rfl, rfl⟩
      intro st' hst'
      injection hst' with e
      omega
    · exact absurd h (by simp)

lemma insertBlock_spec {s : PageMapState} {b : PageBlock} {j : Nat}
    (hInv : TableInv s) (hpc : b.pageCount = 2 ^ j) (hj : j ≤ MAX_ORDER)
    (hs : b.start ≠ 0) :
    TableInv (insertBlock s b) ∧
      sumPages (insertBlock s b) = sumPages s + b.pageCount ∧
      (insertBlock s b).cache = s.cache ∧
      (insertBlock s b).carved = s.carved := by
  have hj64 : j < 64 := by rw [MAX_ORDER] at hj; omega
  have horder : log2u64 b.pageCount = j := by rw [hpc, log2u64_two_pow hj64]
  have hklen : j < s.table.length := by
    rw [hInv.1, MAX_ORDER]
    rw [MAX_ORDER] at hj
    omega
  unfold insertBlock
  rw [horder]
  refine ⟨⟨by simpa using hInv.1, ?_⟩, ?_, rfl, rfl⟩
  · intro i b' hb'
    by_cases hij : i = j
    · subst hij
      rw [getD_set_self [] _ _ _ hklen] at hb'
      rcases List.mem_cons.mp hb' with rfl | hb'
      · exact ⟨hpc, hs⟩
      · exact hInv.2 i b' hb'
    · rw [getD_set_ne [] _ _ _ _ hij] at hb'
      exact hInv.2 i b' hb'
  · exact map_rowPages_set_cons s.table j b hklen

lemma insertBlockWithMerge_spec (fuel : Nat) :
    ∀ {s : PageMapState} {b : PageBlock} {j : Nat},
      TableInv s → b.pageCount = 2 ^ j → j ≤ MAX_ORDER → b.start ≠ 0 →
      TableInv (insertBlockWithMerge fuel s b) ∧
        sumPages (insertBlockWithMerge fuel s b) = sumPages s + b.pageCount ∧
        (insertBlockWithMerge fuel s b).carved = s.carved := by
  induction fuel with
  | zero =>
    intro s b j hInv hpc hj hs
    have h := insertBlock_spec hInv hpc hj hs
    exact ⟨h.1, h.2.1, h.2.2.2⟩
  | succ fuel ih =>
    intro s b j hInv hpc hj hs
    have hj64 : j < 64 := by rw [MAX_ORDER] at hj; omega
    have horder : log2u64 b.pageCount = j := by rw [hpc, log2u64_two_pow hj64]
    simp only [insertBlockWithMerge, horder]
    by_cases hguard : b.pageCount ≤ MAX_ORDER
    · rw [if_pos hguard]
      -- the guard `2 ^ j ≤ 10` forces `j ≤ 3`
      have hj3 : j ≤ 3 := by
        by_contra hj4
        have h16 : 2 ^ 4 ≤ 2 ^ j := Nat.pow_le_pow_right (by norm_num) (by omega)
        rw [MAX_ORDER] at hguard
        rw [hpc] at hguard
        norm_num at h16
        omega
      rcases hrm : removeBlock s (some (Nat.xor b.start (PAGE_SIZE <<< j))) j
        with _ | ⟨bd, s1⟩
      · simp only [hrm]
        have h := insertBlock_spec hInv hpc hj hs
        exact ⟨h.1, h.2.1, h.2.2.2⟩
      · simp only [hrm]
        obtain ⟨hbdpc, hbdstart, hjle, hbdeq, hInv1, hsum1, hcache1, hcarved1⟩ :=
          removeBlock_spec hInv hrm
        have hbds : bd.start = Nat.xor b.start (PAGE_SIZE <<< j) := hbdeq _ rfl
        have hInvPush : TableInv (pushCache s1) := hInv1
        have hpc2 : (PageBlock.mk (min b.start (Nat.xor b.start (PAGE_SIZE <<< j)))
            (b.pageCount * 2)).pageCount = 2 ^ (j + 1) := by
          simp [hpc, Nat.pow_succ]
        have hj2 : j + 1 ≤ MAX_ORDER := by rw [MAX_ORDER]; omega
        have hs2 : (PageBlock.mk (min b.start (Nat.xor b.start (PAGE_SIZE <<< j)))
            (b.pageCount * 2)).start ≠ 0 := by
          have : bd.start ≠ 0 := hbdstart
          rw [hbds] at this
          simp only [ne_eq]
          omega
        obtain ⟨hrInv, hrSum, hrCarved⟩ := ih hInvPush hpc2 hj2 hs2
        refine ⟨hrInv, ?_, ?_⟩
        · rw [hrSum]
          have hps : sumPages (pushCache s1) = sumPages s1 := rfl
          have hexp : (PageBlock.mk (min b.start (Nat.xor b.start (PAGE_SIZE <<< j)))
              (b.pageCount * 2)).pageCount = b.pageCount * 2 := rfl
          rw [hexp, hps]
          rw [hbdpc] at hsum1
          rw [hpc]
          omega
        · rw [hrCarved]
          exact hcarved1
    · rw [if_neg hguard]
      have h := insertBlock_spec hInv hpc hj hs
      exact ⟨h.1, h.2.1, h.2.2.2⟩

lemma registerContinuousPages_spec (fuel : Nat) :
    ∀ {s : PageMapState} {bs pc : Nat},
      TableInv s → pc < fuel → (pc ≠ 0 → bs ≠ 0) →
      TableInv (registerContinuousPages fuel s bs pc) ∧
        s.carved ≤ (registerContinuousPages fuel s bs pc).carved ∧
        ((registerContinuousPages fuel s bs pc).carved = s.carved →
          sumPages (registerContinuousPages fuel s bs pc) = sumPages s + pc) := by
  induction fuel with
  | zero =>
    intro s bs pc _ hfuel _
    omega
  | succ fuel ih =>
    intro s bs pc hInv hfuel hbs
    simp only [registerContinuousPages]
    by_cases hpc0 : pc = 0
    · rw [if_pos hpc0]
      exact ⟨hInv, Nat.le_refl _, fun _ => by omega⟩
    rw [if_neg hpc0]
    by_cases hcache : s.cache = 0
    · rw [if_pos hcache]
      have hInv1 : TableInv { s with
          cache := s.cache + storeAsCacheAdd PAGE_SIZE bs (bs + PAGE_SIZE)
          carved := s.carved + 1 } := hInv
      have hbs1 : pc - 1 ≠ 0 → bs + PAGE_SIZE ≠ 0 := by
        have hP : PAGE_SIZE = 4096 := rfl
        omega
      obtain ⟨h1, h2, h3⟩ := ih hInv1 (by omega) hbs1
      have hcv : ({ s with
          cache := s.cache + storeAsCacheAdd PAGE_SIZE bs (bs + PAGE_SIZE)
          carved := s.carved + 1 } : PageMapState).carved = s.carved + 1 := rfl
      refine ⟨h1, by omega, ?_⟩
      intro hc
      omega
    · rw [if_neg hcache]
      have hInv2 : TableInv { s with cache := s.cache - 1 } := hInv
      have horder10 : min (min (log2u64 pc) MAX_ORDER) (trailingZeros bs - 12)
          ≤ MAX_ORDER :=
        le_trans (Nat.min_le_left _ _) (Nat.min_le_right _ _)
      have hcountpc : 1 <<< (min (min (log2u64 pc) MAX_ORDER) (trailingZeros bs - 12)) ≤ pc := by
        rw [Nat.shiftLeft_eq, one_mul]
        calc 2 ^ (min (min (log2u64 pc) MAX_ORDER) (trailingZeros bs - 12))
            ≤ 2 ^ log2u64 pc :=
              Nat.pow_le_pow_right (by norm_num)
                (le_trans (Nat.min_le_left _ _) (Nat.min_le_left _ _))
          _ ≤ pc := two_pow_ilog2_le 64 pc hpc0
      have hcountpos : 0 < 1 <<< (min (min (log2u64 pc) MAX_ORDER) (trailingZeros bs - 12)) := by
        rw [Nat.shiftLeft_eq, one_mul]
        positivity
      have hblk : (PageBlock.mk bs
          (1 <<< (min (min (log2u64 pc) MAX_ORDER) (trailingZeros bs - 12)))).pageCount
            = 2 ^ (min (min (log2u64 pc) MAX_ORDER) (trailingZeros bs - 12)) := by
        simp [Nat.shiftLeft_eq]
      obtain ⟨hiInv, hiSum, hiCache, hiCarved⟩ :=
        insertBlock_spec hInv2 hblk horder10 (hbs hpc0)
      have hbs3 : pc - 1 <<< (min (min (log2u64 pc) MAX_ORDER) (trailingZeros bs - 12)) ≠ 0 →
          bs + 1 <<< (min (min (log2u64 pc) MAX_ORDER) (trailingZeros bs - 12)) * PAGE_SIZE ≠ 0 := by
        have hP : PAGE_SIZE = 4096 := rfl
        intro _
        omega
      obtain ⟨h1, h2, h3⟩ := ih hiInv (by omega) hbs3
      have hcv2 : ({ s with cache := s.cache - 1 } : PageMapState).carved
          = s.carved := rfl
      refine ⟨h1, by omega, ?_⟩
      intro hc
      have hc3 : (registerContinuousPages fuel
          (insertBlock { s with cache := s.cache - 1 }
            (PageBlock.mk bs (1 <<< (min (min (log2u64 pc) MAX_ORDER) (trailingZeros bs - 12)))))
          (bs + 1 <<< (min (min (log2u64 pc) MAX_ORDER) (trailingZeros bs - 12)) * PAGE_SIZE)
          (pc - 1 <<< (min (min (log2u64 pc) MAX_ORDER) (trailingZeros bs - 12)))).carved
          = (insertBlock { s with cache := s.cache - 1 }
            (PageBlock.mk bs (1 <<< (min (min (log2u64 pc) MAX_ORDER) (trailingZeros bs - 12))))).carved := by
        omega
      have hsum := h3 hc3
      rw [hsum, hiSum, hblk]
      have hss : sumPages { s with cache := s.cache - 1 } = sumPages s := rfl
      rw [hss]
      rw [Nat.shiftLeft_eq, one_mul] at hcountpc
      omega

lemma pmAllocLoop_spec (fuel : Nat) :
    ∀ {s : PageMapState} {o so pc : Nat}, TableInv s → pc = 2 ^ o → o ≤ so →
      TableInv (pmAllocLoop fuel s o so pc).1 ∧
        s.carved ≤ (pmAllocLoop fuel s o so pc).1.carved ∧
        ((pmAllocLoop fuel s o so pc).2 = 0 → (pmAllocLoop fuel s o so pc).1 = s) ∧
        ((pmAllocLoop fuel s o so pc).2 ≠ 0 →
          (pmAllocLoop fuel s o so pc).1.carved = s.carved →
          sumPages (pmAllocLoop fuel s o so pc).1 + pc = sumPages s) := by
  induction fuel with
  | zero =>
    intro s o so pc hInv _ _
    exact ⟨hInv, Nat.le_refl _, fun _ => rfl, fun h _ => absurd rfl h⟩
  | succ fuel ih =>
    intro s o so pc hInv hpc hoso
    simp only [pmAllocLoop]
    by_cases hso : so > MAX_ORDER
    · rw [if_pos hso]
      exact ⟨hInv, Nat.le_refl _, fun _ => rfl, fun h _ => absurd rfl h⟩
    rw [if_neg hso]
    rcases hrm : removeBlock s none so with _ | ⟨blk, s1⟩
    · simp only [hrm]
      exact ih hInv hpc (by omega)
    simp only [hrm]
    obtain ⟨hblkpc, hblkstart, _, _, hInv1, hsum1, hcache1, hcarved1⟩ :=
      removeBlock_spec hInv hrm
    have hInv2 : TableInv (pushCache s1) := hInv1
    have hpcarved : (pushCache s1).carved = s1.carved := rfl
    have hpsum : sumPages (pushCache s1) = sumPages s1 := rfl
    have hshift : (1 <<< so : Nat) = 2 ^ so := by rw [Nat.shiftLeft_eq, one_mul]
    have hpcle : pc ≤ 2 ^ so := by
      rw [hpc]
      exact Nat.pow_le_pow_right (by norm_num) hoso
    by_cases hsoo : so > o
    · rw [if_pos hsoo]
      have hps : (PAGE_SIZE <<< o : Nat) = 4096 * 2 ^ o := by
        rw [Nat.shiftLeft_eq]
        rfl
      have hbs' : (1 <<< so) - pc ≠ 0 → blk.start + (PAGE_SIZE <<< o) ≠ 0 := by
        intro _
        omega
      obtain ⟨hrInv, hrMono, hrCond⟩ :=
        registerContinuousPages_spec ((1 <<< so) - pc + 1) hInv2 (by omega) hbs'
      refine ⟨hrInv, by omega, fun h0 => absurd h0 hblkstart, ?_⟩
      intro _ hc
      have hcr : (registerContinuousPages ((1 <<< so) - pc + 1) (pushCache s1)
          (blk.start + (PAGE_SIZE <<< o)) ((1 <<< so) - pc)).carved
          = (pushCache s1).carved := by omega
      have hsum := hrCond hcr
      rw [hsum, hpsum]
      rw [hblkpc] at hsum1
      rw [hshift]
      omega
    · rw [if_neg hsoo]
      have hoe : o = so := by omega
      subst hoe
      refine ⟨hInv2, by omega, fun h0 => absurd h0 hblkstart, ?_⟩
      intro _ _
      rw [hpsum]
      rw [hblkpc] at hsum1
      rw [hpc]
      omega

lemma pmAllocate_spec {s : PageMapState} (pc : Nat) (hInv : TableInv s) :
    TableInv (pmAllocate s pc).1 ∧
      s.carved ≤ (pmAllocate s pc).1.carved ∧
      ((pmAllocate s pc).2 = 0 → (pmAllocate s pc).1 = s) ∧
      ((pmAllocate s pc).2 ≠ 0 → (pmAllocate s pc).1.carved = s.carved →
        sumPages (pmAllocate s pc).1 + pc = sumPages s) := by
  unfold pmAllocate
  by_cases hguard : ¬(isPow2 pc = true) ∨ pc > 1 <<< MAX_ORDER
  · rw [if_pos hguard]
    exact ⟨hInv, Nat.le_refl _, fun _ => rfl, fun h _ => absurd rfl h⟩
  · rw [if_neg hguard]
    push_neg at hguard
    have hp2 := isPow2_spec hguard.1
    exact pmAllocLoop_spec (MAX_ORDER + 1) hInv hp2.2 (Nat.le_refl _)

lemma pmFree_spec {s : PageMapState} {start pc : Nat} (hInv : TableInv s)
    (hstart : start ≠ 0) (hp2 : isPow2 pc = true) (hle : pc ≤ 2 ^ MAX_ORDER) :
    TableInv (pmFree s start pc) ∧
      s.carved ≤ (pmFree s start pc).carved ∧
      ((pmFree s start pc).carved = s.carved →
        sumPages (pmFree s start pc) = sumPages s + pc) := by
  simp only [pmFree]
  obtain ⟨hpos, hpow⟩ := isPow2_spec hp2
  by_cases hcache : s.cache ≠ 0
  · rw [if_pos hcache]
    have hj : log2u64 pc ≤ MAX_ORDER := by
      by_contra hj'
      have h1 : 2 ^ (MAX_ORDER + 1) ≤ 2 ^ log2u64 pc :=
        Nat.pow_le_pow_right (by norm_num) (by omega)
      have h2 : 2 ^ MAX_ORDER < 2 ^ (MAX_ORDER + 1) :=
        Nat.pow_lt_pow_right (by norm_num) (by omega)
      omega
    have hInv1 : TableInv { s with cache := s.cache - 1 } := hInv
    have hblk : (PageBlock.mk start pc).pageCount = 2 ^ log2u64 pc := hpow
    obtain ⟨hmInv, hmSum, hmCarved⟩ :=
      insertBlockWithMerge_spec 16 hInv1 hblk hj (by exact hstart)
    have hsv : sumPages { s with cache := s.cache - 1 } = sumPages s := rfl
    have hcv : ({ s with cache := s.cache - 1 } : PageMapState).carved = s.carved := rfl
    refine ⟨hmInv, by omega, ?_⟩
    intro _
    rw [hmSum, hsv]
  · rw [if_neg hcache]
    have hInv1 : TableInv { s with
        cache := s.cache + storeAsCacheAdd PAGE_SIZE start (start + PAGE_SIZE)
        carved := s.carved + 1 } := hInv
    have hbs : pc - 1 ≠ 0 → start + PAGE_SIZE ≠ 0 := by
      have hP : PAGE_SIZE = 4096 := rfl
      omega
    have hlt : pc - 1 < pc := by omega
    obtain ⟨h1, h2, h3⟩ := registerContinuousPages_spec pc hInv1 hlt hbs
    have hcv : ({ s with
        cache := s.cache + storeAsCacheAdd PAGE_SIZE start (start + PAGE_SIZE)
        carved := s.carved + 1 } : PageMapState).carved = s.carved + 1 := rfl
    refine ⟨h1, by omega, ?_⟩
    intro hc
    omega

lemma pmExec_spec :
    ∀ (ops : List PMOp) (acc : PageMapState × Nat × Nat),
      TableInv acc.1 → (∀ op ∈ ops, pmOpValid op = true) →
      TableInv (pmExec acc ops).1 ∧
        acc.1.carved ≤ (pmExec acc ops).1.carved ∧
        ((pmExec acc ops).1.carved = acc.1.carved →
          sumPages (pmExec acc ops).1 + (pmExec acc ops).2.1 + acc.2.2
            = sumPages acc.1 + acc.2.1 + (pmExec acc ops).2.2)
  | [], acc, hInv, _ => by
    simp only [pmExec]
    exact ⟨hInv, Nat.le_refl _, fun _ => trivial⟩
  | op :: rest, acc, hInv, hval => by
    have hvalrest : ∀ op' ∈ rest, pmOpValid op' = true :=
      fun op' h => hval op' (List.mem_cons_of_mem _ h)
    simp only [pmExec]
    cases op with
    | alloc pc =>
      simp only [pmStep]
      obtain ⟨haInv, haMono, haNull, haSum⟩ := pmAllocate_spec (s := acc.1) pc hInv
      by_cases h0 : (pmAllocate acc.1 pc).2 = 0
      · rw [if_pos h0]
        have hstate := haNull h0
        rw [hstate]
        obtain ⟨h1, h2, h3⟩ := pmExec_spec rest
          (acc.1, acc.2.1 + 0, acc.2.2) hInv hvalrest
        dsimp only at h1 h2 h3
        refine ⟨h1, h2, ?_⟩
        intro hc
        have := h3 hc
        omega
      · rw [if_neg h0]
        obtain ⟨h1, h2, h3⟩ := pmExec_spec rest
          ((pmAllocate acc.1 pc).1, acc.2.1 + pc, acc.2.2) haInv hvalrest
        dsimp only at h1 h2 h3
        refine ⟨h1, by omega, ?_⟩
        intro hc
        have hmid : (pmAllocate acc.1 pc).1.carved = acc.1.carved := by omega
        have hsum := haSum h0 hmid
        have hrest := h3 (by omega)
        omega
    | free a pc =>
      simp only [pmStep]
      have hv := hval _ (List.mem_cons_self _ _)
      simp only [pmOpValid, Bool.and_eq_true, decide_eq_true_eq] at hv
      obtain ⟨⟨ha0, hp2⟩, hple⟩ := hv
      obtain ⟨hfInv, hfMono, hfSum⟩ := pmFree_spec hInv ha0 hp2 hple
      obtain ⟨h1, h2, h3⟩ := pmExec_spec rest
        (pmFree acc.1 a pc, acc.2.1, acc.2.2 + pc) hfInv hvalrest
      dsimp only at h1 h2 h3
      refine ⟨h1, by omega, ?_⟩
      intro hc
      have hmid : (pmFree acc.1 a pc).carved = acc.1.carved := by omega
      have hsum := hfSum hmid
      have hrest := h3 (by omega)
      omega

lemma getD_replicate_nil :
    ∀ (n k : Nat), (List.replicate n ([] : List PageBlock)).getD k [] = []
  | 0, _ => rfl
  | _ + 1, 0 => rfl
  | n + 1, k + 1 => getD_replicate_nil n k

lemma tableInv_pmEmpty : TableInv pmEmpty := by
  constructor
  · simp [pmEmpty]
  · intro k b hb
    rw [pmEmpty] at hb
    simp only at hb
    rw [getD_replicate_nil] at hb
    cases hb

lemma pmInitLoop_inv :
    ∀ (descs : List MemDesc) {s : PageMapState} {bs pc : Nat},
      TableInv s → (pc ≠ 0 → bs ≠ 0) → TableInv (pmInitLoop s bs pc descs)
  | [], s, bs, pc, hInv, hbs =>
    (registerContinuousPages_spec (pc + 1) hInv (by omega) hbs).1
  | d :: rest, s, bs, pc, hInv, hbs => by
    simp only [pmInitLoop]
    by_cases hus : ¬(isUsableType d.ty = true)
    · rw [if_pos hus]
      exact pmInitLoop_inv rest hInv hbs
    rw [if_neg hus]
    by_cases hv0 : assignVirtStart d.physStart = 0
    · rw [if_pos hv0]
      exact pmInitLoop_inv rest hInv hbs
    rw [if_neg hv0]
    by_cases hcont : bs + pc * PAGE_SIZE = assignVirtStart d.physStart
    · rw [if_pos hcont]
      refine pmInitLoop_inv rest hInv ?_
      intro _
      have hP : PAGE_SIZE = 4096 := rfl
      by_cases hpc : pc = 0
      · subst hpc
        omega
      · exact hbs hpc
    · rw [if_neg hcont]
      have hreg := (registerContinuousPages_spec (pc + 1) hInv (by omega) hbs).1
      exact pmInitLoop_inv rest hreg (fun _ => hv0)

/-- After `init` the buddy table is well-formed, whatever the memory map. -/
lemma tableInv_pmInit (memmap : List MemDesc) : TableInv (pmInit memmap) :=
  pmInitLoop_inv memmap tableInv_pmEmpty (fun h => absurd rfl h)

lemma getD_eq_getElem {α : Type} (d : α) :
    ∀ (t : List α) (i : Nat) (h : i < t.length), t.getD i d = t[i]
  | _ :: _, 0, _ => rfl
  | _ :: xs, i + 1, h => getD_eq_getElem d xs i (by simpa using h)

/-- Under `TableInv`, the source's `free_pages_count` (list length times the
head's `page_count`, per order) agrees with the total page sum. -/
lemma pmFreePagesCount_eq_sumPages {s : PageMapState} (hInv : TableInv s) :
    pmFreePagesCount s = sumPages s := by
  unfold pmFreePagesCount sumPages
  congr 1
  apply List.map_congr_left
  intro l hl
  obtain ⟨i, hilen, heq⟩ := List.mem_iff_getElem.mp hl
  have hrow : ∀ b ∈ l, b.pageCount = 2 ^ i := by
    intro b hb
    have := hInv.2 i b (by rw [getD_eq_getElem [] s.table i hilen, heq]; exact hb)
    exact this.1
  cases l with
  | nil => simp [rowPages]
  | cons b bl =>
    have hconst := rowPages_of_const (b :: bl) (2 ^ i) hrow
    have hb : b.pageCount = 2 ^ i := hrow b (by simp)
    simp only
    rw [hconst, hb]

/-! ## Claim theorems: paging, heap size, OnceStatic -/

/-- **C5** (code bug evidence).  The heap's effective-size computation
`calc_alloc_size` does **not** satisfy the claimed property at the request
`(size, align) = (9, 8)`: the source floors `size / align` before taking the
ceiling log, so it returns `8`, which is *smaller than the requested size*,
whereas the value demanded by the claim (and by the function's own
documentation, the minimal `2 ^ n * align ≥ size`) is `16`. -/
theorem calc_alloc_size_below_request :
    calc_alloc_size 9 8 = 8 ∧ calc_alloc_size 9 8 < 9 ∧
      SpecEffectiveSize 9 8 16 := by
  refine ⟨by decide, by decide, ⟨⟨⟨4, by norm_num⟩, by norm_num [WORD_SIZE], ⟨1, by norm_num⟩⟩, ?_⟩⟩
  rintro m ⟨⟨k, rfl⟩, h9, j, hj⟩
  rw [max_le_iff] at h9
  match j, hj with
  | 0, hj =>
    rw [pow_zero, mul_one] at hj
    omega
  | j + 1, hj =>
    have h1 : 0 < 2 ^ j := by positivity
    have h2 : 2 ≤ 2 ^ (j + 1) := by
      rw [pow_succ]
      omega
    rw [hj]
    omega

/-- **C6** (code bug evidence).  `pyhs_to_virt` guards with
`addr <= STRAIGHT_PAGE_SIZE` (inclusive), so at `p = STRAIGHT_PAGE_SIZE =
2 ^ 39` it returns `Some(p + STRAIGHT_PAGE_MAP_BASE)` instead of the `None`
the claim requires — and `virt_to_phys` (whose straight-map range test is
exclusive) cannot map the produced virtual address back, for any values of
the kernel-image globals `(kvb, kve, kpb)`; shown here at `(0, 0, 0)`. -/
theorem pyhs_to_virt_inclusive_boundary :
    pyhs_to_virt STRAIGHT_PAGE_SIZE
        = some (STRAIGHT_PAGE_SIZE + STRAIGHT_PAGE_MAP_BASE) ∧
      virt_to_phys 0 0 0 (STRAIGHT_PAGE_SIZE + STRAIGHT_PAGE_MAP_BASE) = none := by
  exact ⟨rfl, rfl⟩

/-- **C7** (confirmed).  For every physical address `p` with
`0 < p < STRAIGHT_PAGE_SIZE`, converting to a virtual address with
`pyhs_to_virt` and back with `virt_to_phys` is the identity, whatever the
values of the kernel-image globals. -/
theorem straight_map_roundtrip (kvb kve kpb p : Nat) (h0 : 0 < p)
    (hp : p < STRAIGHT_PAGE_SIZE) :
    (pyhs_to_virt p).bind (virt_to_phys kvb kve kpb) = some p := by
  have hle : p ≤ STRAIGHT_PAGE_SIZE := le_of_lt hp
  rw [pyhs_to_virt, if_pos hle]
  have hc : STRAIGHT_PAGE_MAP_BASE ≤ p + STRAIGHT_PAGE_MAP_BASE ∧
      p + STRAIGHT_PAGE_MAP_BASE < STRAIGHT_PAGE_MAP_BASE + STRAIGHT_PAGE_SIZE :=
    ⟨Nat.le_add_left _ p, by omega⟩
  rw [Option.some_bind, virt_to_phys, if_pos hc, Nat.add_sub_cancel]

/-- Witness for `straight_map_roundtrip` at `p = 4096` (and zeroed kernel
globals). -/
theorem straight_map_roundtrip_witness :
    0 < 4096 ∧ 4096 < STRAIGHT_PAGE_SIZE ∧
      (pyhs_to_virt 4096).bind (virt_to_phys 0 0 0) = some 4096 :=
  ⟨by norm_num, by norm_num [STRAIGHT_PAGE_SIZE, Nat.shiftLeft_eq],
    straight_map_roundtrip 0 0 0 4096 (by norm_num)
      (by norm_num [STRAIGHT_PAGE_SIZE, Nat.shiftLeft_eq])⟩

lemma onceRunInits_initialized {T : Type} (v : T) (ws : List T) :
    onceRunInits (some v) ws = (List.replicate ws.length false, some v) := by
  induction ws with
  | nil => rfl
  | cons w ws ih => simp [onceRunInits, onceInit, ih, List.replicate_succ]

/-- **C8** (confirmed).  After `OnceStatic::init(v)` on a fresh cell returns
`true`, any further sequence of `init` calls (with arbitrary values `ws`)
returns `false` at every call and leaves the stored value `v` unchanged, and
a read (`get` / `as_ref`) after any such sequence yields `v`. -/
theorem onceStatic_init_once (T : Type) (v : T) (ws : List T) :
    onceInit (onceNew T) v = (true, some v) ∧
      onceRunInits (some v) ws = (List.replicate ws.length false, some v) ∧
      onceGet (onceRunInits (some v) ws).2 = some v := by
  refine ⟨rfl, onceRunInits_initialized v ws, ?_⟩
  rw [onceRunInits_initialized]
  rfl

/-! ## Claim theorems: task manager -/

/-- **C2** (code bug evidence).  `determine_id` computes
`head_id.checked_add(1)` but never stores the result back, so `head_id`
stays `0` forever and *every* registration is assigned id `1`: after `init`,
two consecutive `register_new_task` calls both receive id `1` (the second
`HashMap` insert overwrites the first task) and the queue ends as
`[0, 1, 1]` — ids are not strictly increasing. -/
theorem register_new_task_id_repeats :
    (tmRegisterNewTask (tmInit tmNew)).map (fun r => r.2) = some 1 ∧
      ((tmRegisterNewTask (tmInit tmNew)).bind fun r => tmRegisterNewTask r.1).map
          (fun r => r.2) = some 1 ∧
      ((tmRegisterNewTask (tmInit tmNew)).bind fun r => tmRegisterNewTask r.1).map
          (fun r => r.1.queue) = some [0, 1, 1] ∧
      ((tmRegisterNewTask (tmInit tmNew)).bind fun r => tmRegisterNewTask r.1).map
          (fun r => r.1.headId) = some 0 :=
  ⟨rfl, rfl, rfl, rfl⟩

/-- **C9** (confirmed).  When a task calls `sleep` while the queue is
`[running, a, b, …]` (at least two other tasks), the sleeper's immediate
successor `a` is moved to the tail and marked `Ready`, and the task `b`
after it becomes `Running`: `sleep` pops the sleeper and then rotates once
more, so `a` is bypassed for one round. -/
theorem sleep_bypasses_successor (s : TMState) (a b : Nat) (rest : List Nat)
    (stc sta stb : TaskState)
    (hq : s.queue = s.runningId :: a :: b :: rest)
    (hcur : s.tasks s.runningId = some stc)
    (ha : s.tasks a = some sta) (hb : s.tasks b = some stb)
    (hra : a ≠ s.runningId) (hrb : b ≠ s.runningId) (hab : a ≠ b) :
    ((tmSleep s).map fun r => r.queue) = some (b :: (rest ++ [a])) ∧
      ((tmSleep s).bind fun r => r.tasks a) = some TaskState.Ready ∧
      ((tmSleep s).bind fun r => r.tasks b) = some TaskState.Running ∧
      ((tmSleep s).map fun r => r.runningId) = some b := by
  refine ⟨?_, ?_, ?_, ?_⟩ <;>
    simp [tmSleep, tmRotate, tmSetState, hq, hcur, ha, hb, hra, hrb, hab,
      Ne.symm hab]

/-- Witness for `sleep_bypasses_successor`: three tasks, queue `[0, 1, 2]`,
task 0 (running) goes to sleep; task 1 is rotated to the tail and task 2
runs. -/
theorem sleep_bypasses_successor_witness :
    let s : TMState :=
      { tasks := fun i =>
          if i = 0 then some TaskState.Running
          else if i = 1 then some TaskState.Ready
          else if i = 2 then some TaskState.Ready
          else none
        queue := [0, 1, 2], runningId := 0, headId := 0 }
    s.queue = s.runningId :: 1 :: 2 :: [] ∧
      s.tasks s.runningId = some TaskState.Running ∧
      s.tasks 1 = some TaskState.Ready ∧
      s.tasks 2 = some TaskState.Ready ∧
      (1 : Nat) ≠ s.runningId ∧ (2 : Nat) ≠ s.runningId ∧ (1 : Nat) ≠ 2 ∧
      ((tmSleep s).map fun r => r.queue) = some (2 :: ([] ++ [1])) ∧
      ((tmSleep s).bind fun r => r.tasks 1) = some TaskState.Ready ∧
      ((tmSleep s).bind fun r => r.tasks 2) = some TaskState.Running ∧
      ((tmSleep s).map fun r => r.runningId) = some 2 :=
  ⟨rfl, rfl, rfl, rfl, by decide, by decide, by decide,
    sleep_bypasses_successor _ 1 2 [] TaskState.Running TaskState.Ready
      TaskState.Ready rfl rfl rfl rfl (by decide) (by decide) (by decide)⟩

/-- **C10** (confirmed).  `wake_up` ends with an unconditional
`asmfunc::sti()`, so the interrupt flag is `true` on return for *every*
entry state and entry flag value — in particular a caller that entered with
interrupts disabled (such as the sleeping-mutex release path in
`MutexGuard::drop`) has them re-enabled as a side effect. -/
theorem wake_up_sets_interrupt_flag (s : TMState) (intFlag : Bool) (id : Nat) :
    (tmWakeUp s intFlag id).2 = true := rfl

/-! ## Claim theorems: page allocator (concrete computations) -/

/-- **C1** (code bug evidence).  The merge loop of
`insert_block_with_merge` is guarded by `block.page_count <= MAX_ORDER`,
comparing a page *count* against the *order* bound `10`, so blocks of 16 or
more pages are never merged with their buddies.  Concretely: from a pool
holding one free 32-page block at `S` (and spare metadata nodes), two
`allocate(16)` calls split it into `S` and `S + 16 pages`; freeing both
halves leaves two unmerged 16-page blocks at order 4 (order 5 stays empty),
and a subsequent `allocate(32)` returns null (`0`) instead of the original
start `S` required by the claim. -/
theorem buddy_merge_stops_at_order_four :
    (let S : Nat := STRAIGHT_PAGE_MAP_BASE + 0x400000
     let s0 : PageMapState :=
       { table := [[], [], [], [], [],
           [{ start := S, pageCount := 32 }], [], [], [], [], []],
         cache := 4, carved := 0 }
     let r1 := pmAllocate s0 16
     let r2 := pmAllocate r1.1 16
     let s3 := pmFree r2.1 r1.2 16
     let s4 := pmFree s3 r2.2 16
     let r5 := pmAllocate s4 32
     r1.2 = S ∧ r2.2 = S + 16 * PAGE_SIZE ∧
       s4.table.getD 4 [] =
         [{ start := S + 16 * PAGE_SIZE, pageCount := 16 },
          { start := S, pageCount := 16 }] ∧
       s4.table.getD 5 [] = [] ∧ r5.2 = 0) := by
  decide

/-- The concrete memory map of the spec's scenario S1:
`[{conventional, phys=0x1_0000, pages=256}, {conventional, phys=0x10_0000,
pages=4096}]`. -/
def s1Memmap : List MemDesc :=
  [{ ty := CONVENTIONAL, physStart := 0x10000, pageCount := 256 },
   { ty := CONVENTIONAL, physStart := 0x100000, pageCount := 4096 }]

/-- **C4** (counterexample).  After `init` with the S1 memory map,
`free_pages_count()` is *not* `4352`. -/
theorem s1_free_pages_count_ne_4352 :
    pmFreePagesCount (pmInit s1Memmap) ≠ 4352 := by
  decide

/-- **C4** (amended).  `free_pages_count()` returns `4351` after `init` with
the S1 memory map: the node cache is empty when the first usable region is
registered, so the allocator converts that region's first page into metadata
nodes (`store_as_cache`) and registers only `255 + 4096` pages. -/
theorem s1_free_pages_count_eq_4351 :
    pmFreePagesCount (pmInit s1Memmap) = 4351 ∧ (pmInit s1Memmap).carved = 1 := by
  constructor
  · decide
  · decide

/-- Memory map exhibiting the C3 counterexample: 170 isolated one-page
usable regions (1 MiB apart, so none coalesce and no two are buddies)
followed by one 4-page region.  `init` carves the first region's page into
170 metadata nodes; the remaining 169 one-page regions and the single
4-page block then consume all 170 nodes, leaving the cache empty. -/
def c3Memmap : List MemDesc :=
  (List.range 170).map
    (fun k => { ty := CONVENTIONAL, physStart := (k + 1) * 0x100000, pageCount := 1 }) ++
    [{ ty := CONVENTIONAL, physStart := 171 * 0x100000, pageCount := 4 }]

/-- **C3** (counterexample).  A valid two-call sequence — one successful
`allocate(2)` whose result is then freed with the same page count — after
which `free_pages_count()` differs from its initial value: starting from
`init` of `c3Memmap` the cache is empty, `allocate(2)` splits the 4-page
block (the split consumes the last spare node), and `free` then finds the
cache empty and permanently converts one page of the freed block into
metadata nodes: the count drops from 173 to 172. -/
theorem conservation_violated_on_cache_exhaustion :
    (let s0 := pmInit c3Memmap
     let r1 := pmAllocate s0 2
     let s2 := pmFree r1.1 r1.2 2
     pmFreePagesCount s0 = 173 ∧ r1.2 ≠ 0 ∧
       pmFreePagesCount s2 = 172 ∧
       pmFreePagesCount s2 ≠ pmFreePagesCount s0) := by
  decide

/-- **C3** (amended).  Buddy conservation holds as long as the metadata-node
cache never runs dry: for every sequence of `allocate`/`free` calls on an
initialized `PageMap` in which (i) every `free` is valid in the claim's
sense (its address and page count come from a prior successful `allocate`,
so the address is non-null and the count is a power of two `≤ 2 ^
MAX_ORDER`), (ii) no call converts a page into metadata nodes (the
`carved` instrumentation counter does not move), and (iii) the sequence is
balanced (total pages successfully allocated = total pages freed — in
particular when every allocation is eventually freed), `free_pages_count()`
at the end equals its value at the start.  The counterexample shows the
claim fails without condition (ii). -/
theorem conservation_without_carving (memmap : List MemDesc) (ops : List PMOp)
    (hval : ∀ op ∈ ops, pmOpValid op = true)
    (hnocarve : (pmExec (pmInit memmap, 0, 0) ops).1.carved = (pmInit memmap).carved)
    (hbalanced : (pmExec (pmInit memmap, 0, 0) ops).2.1
      = (pmExec (pmInit memmap, 0, 0) ops).2.2) :
    pmFreePagesCount (pmExec (pmInit memmap, 0, 0) ops).1
      = pmFreePagesCount (pmInit memmap) := by
  have hInv0 := tableInv_pmInit memmap
  obtain ⟨hInv, _, hcond⟩ := pmExec_spec ops (pmInit memmap, 0, 0) hInv0 hval
  dsimp only at hcond
  have hsum := hcond hnocarve
  rw [pmFreePagesCount_eq_sumPages hInv, pmFreePagesCount_eq_sumPages hInv0]
  omega

/-- Witness for `conservation_without_carving`: one region of 8 pages,
trace `allocate(1)` followed by `free` of the returned address
(`STRAIGHT_PAGE_MAP_BASE + 0x101000`); nothing is carved during the trace
and the free-page count stays `7`. -/
theorem conservation_without_carving_witness :
    (∀ op ∈ ([PMOp.alloc 1,
        PMOp.free (STRAIGHT_PAGE_MAP_BASE + 0x101000) 1] : List PMOp),
      pmOpValid op = true) ∧
      (pmExec (pmInit [{ ty := CONVENTIONAL, physStart := 0x100000, pageCount := 8 }], 0, 0)
          [PMOp.alloc 1, PMOp.free (STRAIGHT_PAGE_MAP_BASE + 0x101000) 1]).1.carved
        = (pmInit [{ ty := CONVENTIONAL, physStart := 0x100000, pageCount := 8 }]).carved ∧
      (pmExec (pmInit [{ ty := CONVENTIONAL, physStart := 0x100000, pageCount := 8 }], 0, 0)
          [PMOp.alloc 1, PMOp.free (STRAIGHT_PAGE_MAP_BASE + 0x101000) 1]).2.1
        = (pmExec (pmInit [{ ty := CONVENTIONAL, physStart := 0x100000, pageCount := 8 }], 0, 0)
          [PMOp.alloc 1, PMOp.free (STRAIGHT_PAGE_MAP_BASE + 0x101000) 1]).2.2 ∧
      pmFreePagesCount (pmExec
          (pmInit [{ ty := CONVENTIONAL, physStart := 0x100000, pageCount := 8 }], 0, 0)
          [PMOp.alloc 1, PMOp.free (STRAIGHT_PAGE_MAP_BASE + 0x101000) 1]).1
        = pmFreePagesCount (pmInit [{ ty := CONVENTIONAL, physStart := 0x100000, pageCount := 8 }]) :=
  ⟨by decide, by decide, by decide,
    conservation_without_carving
      [{ ty := CONVENTIONAL, physStart := 0x100000, pageCount := 8 }]
      [PMOp.alloc 1, PMOp.free (STRAIGHT_PAGE_MAP_BASE + 0x101000) 1]
      (by decide) (by decide) (by decide)⟩

end Miker
